import Mathlib

/-
  Verification of the chat-message classifier and streak/achievement bookkeeping of
  the expense-tracker backend (src/backend/server.js), as a shallow embedding.
  Strings are lists of characters; the JavaScript regexes used by the handlers are
  embedded as executable matching functions with the same greedy/lazy semantics on
  the character classes they use.  Amounts are rationals (the handlers only ever
  parse decimal literals, where IEEE doubles and rationals agree on the observations
  made here); a NaN produced by parseFloat on an empty digit string is modelled as
  Option.none.
-/

namespace ExpenseTracker

/-- Regex class \d : the ASCII digits. -/
def isDigitChar (c : Char) : Bool := decide ('0' ≤ c) && decide (c ≤ '9')

/-- Character class [\d,] of the amount pattern in handleEvent (server.js 382). -/
def isNumChar (c : Char) : Bool := isDigitChar c || c == ','

/-- Regex class \s and the characters stripped by String.prototype.trim, restricted to
    the ASCII whitespace that can occur in the chat texts. -/
def isWsChar (c : Char) : Bool := c == ' ' || c == '\t' || c == '\n' || c == '\r'

/-- JS char class `.` without the s flag: everything except line terminators. -/
def dotChar (c : Char) : Bool := !(c == '\n') && !(c == '\r')

/-- String.prototype.toLowerCase, restricted to ASCII letters (Thai text is a fixed
    point of toLowerCase). -/
def lowerChar (c : Char) : Char :=
  if decide ('A' ≤ c) && decide (c ≤ 'Z') then Char.ofNat (c.toNat + 32) else c

def lowerStr (s : List Char) : List Char := s.map lowerChar

def trimLeft (s : List Char) : List Char := s.dropWhile (fun c => isWsChar c)

/-- String.prototype.trim. -/
def trimJS (s : List Char) : List Char := (trimLeft (trimLeft s).reverse).reverse

/-- begins s pre: s starts with the character sequence pre. -/
def begins : List Char → List Char → Bool
  | _, [] => true
  | [], _ :: _ => false
  | c :: cs, p :: ps => c == p && begins cs ps

/-- String.prototype.includes: needle occurs contiguously somewhere in hay. -/
def occursIn (needle : List Char) : List Char → Bool
  | [] => needle.isEmpty
  | c :: rest => begins (c :: rest) needle || occursIn needle rest

/-- One step list of str.replace(new RegExp(kw, 'g'), '') with fuel: repeated removal of
    the leftmost occurrence of the literal kw (every keyword fed to it is free of regex
    metacharacters).  The fuel is the length of the subject, which bounds the number of
    steps. -/
def removeAllF : Nat → List Char → List Char → List Char
  | 0, _, s => s
  | _ + 1, _, [] => []
  | f + 1, kw, c :: rest =>
    if !kw.isEmpty && begins (c :: rest) kw then
      removeAllF f kw ((c :: rest).drop kw.length)
    else c :: removeAllF f kw rest

/-- str.replace(new RegExp(kw, 'g'), '') for a literal keyword kw. -/
def removeAll (kw s : List Char) : List Char := removeAllF s.length kw s

def digitVal (c : Char) : Nat := c.toNat - 48

def digitsToNat (ds : List Char) : Nat := ds.foldl (fun a c => a * 10 + digitVal c) 0

/-- parseFloat on the comma-free text of an amount match: optional integer digits and an
    optional dot with fraction digits.  parseFloat of the empty string is NaN, modelled
    as none. -/
def parseFloatQ (s : List Char) : Option ℚ :=
  let ip := s.takeWhile isDigitChar
  let rest := s.dropWhile isDigitChar
  match rest with
  | '.' :: r =>
    let fp := r.takeWhile isDigitChar
    if ip.isEmpty && fp.isEmpty then none
    else some ((digitsToNat ip : ℚ) + (digitsToNat fp : ℚ) / ((10 : ℚ) ^ fp.length))
  | _ => if ip.isEmpty then none else some ((digitsToNat ip : ℚ))

/-- Leftmost match of the amount pattern /[\d,]+(\.\d+)?/ (server.js 382): the greedy run
    of digits and commas starting at the first such character, extended by a dot and a
    digit run when one directly follows.  Returns (before, match, after). -/
def findNumberMatch : List Char → Option (List Char × List Char × List Char)
  | [] => Option.none
  | c :: rest =>
    if isNumChar c then
      let run := (c :: rest).takeWhile isNumChar
      let tail := (c :: rest).dropWhile isNumChar
      match tail with
      | '.' :: r2 =>
        let frac := r2.takeWhile isDigitChar
        if frac.isEmpty then some ([], run, tail)
        else some ([], run ++ '.' :: frac, r2.dropWhile isDigitChar)
      | _ => some ([], run, tail)
    else
      match findNumberMatch rest with
      | some (pre, m, post) => some (c :: pre, m, post)
      | none => none

/-- The type tag of categories and transactions (models.js categorySchema.type,
    transactionSchema.type). -/
inductive TxType
  | income
  | expense
deriving DecidableEq

/-- A category as the classifier observes it: its name and its type tag (the other schema
    fields - icon, color, budget - play no part in classification). -/
structure Category where
  name : List Char
  ctype : TxType
deriving DecidableEq

/-- The observable fields of a Transaction document written by the chat handlers.
    amount = none models a NaN from parseFloat. -/
structure TxRec where
  txType : TxType
  amount : Option ℚ
  categoryName : List Char
  note : List Char
deriving DecidableEq

/-- Database writes the chat handlers can perform. -/
inductive DbWrite
  | insertGroup
  | insertCategories
  | insertUser
  | saveUser
  | insertTransaction (tx : TxRec)
deriving DecidableEq

/-- The reply kinds of handleEvent (first /webhook handler): silence (no reply at all),
    the summary flex message, the fixed category-not-found text (server.js 452-457, which
    carries no suggestion list), the recorded-transaction flex message, and the generic
    catch-all error text (server.js 569-575). -/
inductive HEReply
  | silent
  | summaryFlex
  | catNotFound
  | recordedFlex (tx : TxRec)
  | errorText
deriving DecidableEq

def isRecordedReply : HEReply → Bool
  | .recordedFlex _ => true
  | _ => false

/-- expenseKeywords of server.js 394. -/
def expenseKeywords : List (List Char) :=
  ["จ่าย".data, "ซื้อ".data, "ค่า".data, "กิน".data, "ดื่ม".data,
   "เสีย".data, "หมด".data, "เติม".data, "โอน".data, "จอง".data]

/-- incomeKeywords of server.js 395. -/
def incomeKeywords : List (List Char) :=
  ["รับ".data, "ได้".data, "เงินเดือน".data, "โบนัส".data, "ขาย".data,
   "หารายได้".data, "+".data]

/-- The keyword scan of handleEvent (server.js 398-420).  The original text is searched
    for the first income keyword; a hit sets the type to income and globally removes the
    keyword from the item name (the text minus the number).  Otherwise the first expense
    keyword found is removed and the type stays expense.  The keyword "+" is not a valid
    RegExp source, so new RegExp(keyword) throws there; the none result models that
    SyntaxError (it is caught by the handler and turned into the generic error reply). -/
def classifyKeywords (text twn : List Char) : Option (TxType × List Char) :=
  match incomeKeywords.find? (fun kw => occursIn kw text) with
  | some kw =>
    if kw = "+".data then none
    else some (TxType.income, trimJS (removeAll kw twn))
  | none =>
    match expenseKeywords.find? (fun kw => occursIn kw text) with
    | some kw => some (TxType.expense, trimJS (removeAll kw twn))
    | none => some (TxType.expense, twn)

/-- itemName.replace(/^(ค่า|เงิน|ของ)/g, '') (server.js 423): the anchor lets at most one
    leading alternative, tried in order, be removed. -/
def stripLeadKw (s : List Char) : List Char :=
  if begins s "ค่า".data then s.drop ("ค่า".data).length
  else if begins s "เงิน".data then s.drop ("เงิน".data).length
  else if begins s "ของ".data then s.drop ("ของ".data).length
  else s

/-- Case-insensitive name equality (a.toLowerCase() === b.toLowerCase()). -/
def nameEqCI (a b : List Char) : Bool := lowerStr a == lowerStr b

def isDefaultName (n : List Char) : Bool :=
  n == "อื่นๆ".data || n == "Others".data || n == "General".data

/-- Category resolution of handleEvent (server.js 426-450): first an exact
    case-insensitive match of the cleaned category name; failing that, a default-named
    category of the inferred type, then the first category of the inferred type.  Finally
    an exact case-insensitive match of the raw label (text minus the number, nonempty)
    overrides both the category and the type with that of the matched category. -/
def heResolveCategory (cats : List Category) (categoryName twn : List Char) (ty : TxType) :
    Option Category × TxType :=
  let cat1 := cats.find? (fun c => nameEqCI c.name categoryName)
  let cat2 :=
    match cat1 with
    | some c => some c
    | none =>
      match cats.find? (fun c => decide (c.ctype = ty) && isDefaultName c.name) with
      | some c => some c
      | none => cats.find? (fun c => decide (c.ctype = ty))
  let exactNameMatch :=
    if twn.isEmpty then Option.none
    else cats.find? (fun c => nameEqCI c.name twn)
  match exactNameMatch with
  | some c => (some c, c.ctype)
  | none => (cat2, ty)

/-- The command test of handleEvent (server.js 222): only the summary phrases. -/
def heCommand (lowerText : List Char) : Bool :=
  lowerText == "สรุป".data || lowerText == "summary".data

/-- The text-message path of handleEvent, the handler of the first /webhook route
    (server.js 171-576), reduced to its observable reply kind and database writes.
    registered = false prepends the auto-registration writes (personal group, default
    categories, user) performed before classification.  A NaN amount (possible when the
    number match is a bare comma) fails the mongoose Number cast on transaction.save(),
    which the catch turns into the generic error reply with nothing persisted. -/
def handleEvent (registered : Bool) (msg : List Char) (cats : List Category) :
    HEReply × List DbWrite :=
  let text := trimJS msg
  let reg : List DbWrite :=
    if registered then [] else [.insertGroup, .insertCategories, .insertUser]
  if heCommand (lowerStr text) then (.summaryFlex, reg)
  else
    match findNumberMatch text with
    | none => (.silent, reg)
    | some (pre, m, post) =>
      let rawAmount := parseFloatQ (m.filter (fun c => !(c == ',')))
      let textWithoutNumber := trimJS (pre ++ post)
      match classifyKeywords text textWithoutNumber with
      | none => (.errorText, reg)
      | some (ty, itemName0) =>
        let itemName := trimJS (stripLeadKw itemName0)
        let categoryName := if itemName.isEmpty then "อื่นๆ".data else itemName
        match heResolveCategory cats categoryName textWithoutNumber ty with
        | (Option.none, _) => (.catNotFound, reg)
        | (some c, ty1) =>
          match rawAmount with
          | none => (.errorText, reg)
          | some q =>
            let tx : TxRec :=
              { txType := ty1, amount := some q, categoryName := c.name, note := text }
            (.recordedFlex tx, reg ++ [.insertTransaction tx])

/-- The gamification fields of the User document (models.js userSchema): streak counter,
    last-record day as a YYYY-MM-DD string (none = null, first ever), and the unlocked
    achievement ids in push order. -/
structure GamState where
  streak : Nat
  lastRecordDate : Option String
  achievements : List String
deriving DecidableEq

/-- if (!user.achievements.includes(id)) user.achievements.push(id) -/
def unlockAchievement (achs : List String) (aid : String) : List String :=
  if achs.contains aid then achs else achs ++ [aid]

/-- Streak and achievement update of the second /webhook handler (server.js 2464-2489):
    runs only when the last-record day is not today; increments the streak when the last
    record was yesterday, else resets it to 1; then checks week_streak at exactly 7,
    month_streak at exactly 30, and first_record unconditionally, each guarded by a
    membership test. -/
def webhookStreakUpdate (u : GamState) (todayStr yesterdayStr : String) : GamState :=
  if u.lastRecordDate = some todayStr then u
  else
    let streak1 := if u.lastRecordDate = some yesterdayStr then u.streak + 1 else 1
    let a1 := if streak1 = 7 then unlockAchievement u.achievements "week_streak"
              else u.achievements
    let a2 := if streak1 = 30 then unlockAchievement a1 "month_streak" else a1
    let a3 := unlockAchievement a2 "first_record"
    { streak := streak1, lastRecordDate := some todayStr, achievements := a3 }

/-- Streak and achievement update of the /api/simulate-line endpoint (server.js
    1718-1739): identical to the webhook update except that it has no month_streak
    check at all. -/
def simulateStreakUpdate (u : GamState) (todayStr yesterdayStr : String) : GamState :=
  if u.lastRecordDate = some todayStr then u
  else
    let streak1 := if u.lastRecordDate = some yesterdayStr then u.streak + 1 else 1
    let a1 := if streak1 = 7 then unlockAchievement u.achievements "week_streak"
              else u.achievements
    let a2 := unlockAchievement a1 "first_record"
    { streak := streak1, lastRecordDate := some todayStr, achievements := a2 }

/-- Greedy \s+ attempt ladder: wsTryFrom P s k tries P after dropping k, k-1, ..., 1
    whitespace characters, longest run first. -/
def wsTryFrom (P : List Char → Option α) (s : List Char) : Nat → Option α
  | 0 => Option.none
  | k + 1 =>
    match P (s.drop (k + 1)) with
    | some a => some a
    | none => wsTryFrom P s k

/-- Greedy \s+ followed by a continuation: the longest leading whitespace run is
    consumed first, giving back characters on failure of the continuation. -/
def wsPlusThen (P : List Char → Option α) (s : List Char) : Option α :=
  wsTryFrom P s (s.takeWhile isWsChar).length

/-- Lazy (.+?) followed by a continuation: the shortest nonempty prefix of dot-matching
    characters whose remaining suffix satisfies the continuation wins. -/
def lazyDotPlus (P : List Char → Option α) : List Char → List Char → Option (List Char × α)
  | _, [] => Option.none
  | acc, c :: rest =>
    if dotChar c then
      match P rest with
      | some a => some (acc ++ [c], a)
      | none => lazyDotPlus P (acc ++ [c]) rest
    else Option.none

/-- Matches (\d+)$ : the rest of the subject is a nonempty digit run. -/
def digitsEnd (s : List Char) : Option (List Char) :=
  if s.isEmpty || !(s.all isDigitChar) then none else some s

/-- Matches /^VERB\s+(.+?)\s+(\d+)$/i for a Thai verb (the i flag is vacuous on Thai): the shape
    shared by the ตั้งงบ (server.js 1963), ตั้งเป้า (2226) and ออม (2248) commands. -/
def matchVerbNameAmount (verb t : List Char) : Option (List Char × List Char) :=
  if begins t verb then
    wsPlusThen (fun s1 => lazyDotPlus (fun s2 => wsPlusThen digitsEnd s2) [] s1)
      (t.drop verb.length)
  else none

/-- Matches (\d+(?:\.\d+)?)(?:\s+(.*))?$ : the amount and optional trailing note of the
    smart-input pattern.  The note group, when present, is everything after the
    whitespace run that follows the amount. -/
def amountNoteEnd (s : List Char) : Option (List Char × Option (List Char)) :=
  let ds := s.takeWhile isDigitChar
  if ds.isEmpty then none
  else
    let r1 := s.dropWhile isDigitChar
    let ar :=
      match r1 with
      | '.' :: r2 =>
        let fs := r2.takeWhile isDigitChar
        if fs.isEmpty then (ds, r1) else (ds ++ '.' :: fs, r2.dropWhile isDigitChar)
      | _ => (ds, r1)
    if ar.2.isEmpty then some (ar.1, Option.none)
    else
      let ws := ar.2.takeWhile isWsChar
      let nt := ar.2.drop ws.length
      if ws.isEmpty || !(nt.all dotChar) then none else some (ar.1, some nt)

/-- The smart-input pattern /^(.+?)\s+(\d+(?:\.\d+)?)(?:\s+(.*))?$/ (server.js 2422 and
    1677): label, amount text and optional note. -/
def smartMatch (t : List Char) : Option (List Char × List Char × Option (List Char)) :=
  lazyDotPlus (fun s => wsPlusThen amountNoteEnd s) [] t

/-- Matches /^(?:อารมณ์|mood)\s*(\d)$/ (server.js 2304), applied to the lowercased text. -/
def moodRegexMatch (t : List Char) : Option Char :=
  let tryVerb (v : List Char) : Option Char :=
    if begins t v then
      match (t.drop v.length).dropWhile isWsChar with
      | [d] => if isDigitChar d then some d else none
      | _ => none
    else none
  (tryVerb "อารมณ์".data).orElse (fun _ => tryVerb "mood".data)

/-- Matches /^(?:จด|บันทึก|note)\s+(.+)$/i (server.js 2326), on the original text; only the
    ASCII verb is affected by the i flag. -/
def noteRegexMatch (t : List Char) : Option (List Char) :=
  let tryVerb (v : List Char) : Option (List Char) :=
    if begins (lowerStr t) (lowerStr v) then
      let r := t.drop v.length
      let ws := r.takeWhile isWsChar
      let body := r.drop ws.length
      if ws.isEmpty || body.isEmpty || !(body.all dotChar) then none else some body
    else none
  (tryVerb "จด".data).orElse (fun _ =>
    (tryVerb "บันทึก".data).orElse (fun _ => tryVerb "note".data))

/-- The branch selected by the command dispatch of the second /webhook handler. -/
inductive WBranch
  | incomeMenu
  | incomeHow
  | expenseMenu
  | expenseHow
  | recurringList
  | budgetMenu
  | budgetStatusView
  | setBudget (name amt : List Char)
  | topCats
  | monthSummary
  | daySummary
  | viewCats
  | balanceView
  | spentView
  | goalsList
  | setGoal (name amt : List Char)
  | addSaving (name amt : List Char)
  | achievementsView
  | moodSet (d : Char)
  | journalNote (txt : List Char)
  | journalView
  | recentList
  | allCats
  | statsView
  | helpView
  | smartInput (m : Option (List Char × List Char × Option (List Char)))
deriving DecidableEq

/-- Continuation-style dispatch step on an optional regex match. -/
def onMatch (x : Option α) (f : α → WBranch) (k : Unit → WBranch) : WBranch :=
  match x with
  | some a => f a
  | none => k ()

/-- Command dispatch of the second /webhook handler (server.js 1802-2427) on the trimmed
    message text, with every branch in source order; literal phrases are compared against
    the lowercased text, the three VERB NAME AMOUNT commands and the journal commands
    against their regexes, and the final fall-through is the smart-input pattern
    (whose failure is a silent continue). -/
def secondDispatch (orig : List Char) : WBranch :=
  let text := lowerStr orig
  if text == "รายรับ".data || text == "income".data || text == "+".data then .incomeMenu
  else if text == "วิธีบันทึกรายรับ".data then .incomeHow
  else if text == "รายจ่าย".data || text == "expense".data || text == "-".data then
    .expenseMenu
  else if text == "วิธีบันทึกรายจ่าย".data then .expenseHow
  else if text == "ประจำ".data || text == "recurring".data then .recurringList
  else if text == "งบ".data || text == "budget".data || text == "งบประมาณ".data then
    .budgetMenu
  else if text == "สถานะงบ".data then .budgetStatusView
  else onMatch (matchVerbNameAmount "ตั้งงบ".data orig)
    (fun p => .setBudget p.1 p.2) (fun _ =>
  if text == "หมวด".data then .topCats
  else if text == "สรุป".data || text == "สรุปเดือน".data then .monthSummary
  else if text == "สรุปวัน".data || text == "วันนี้".data then .daySummary
  else if text == "ดูหมวด".data || text == "หมวดหมู่".data then .viewCats
  else if text == "เหลือเท่าไหร่".data || text == "ยอดคงเหลือ".data ||
      text == "balance".data then .balanceView
  else if text == "ใช้ไปเท่าไหร่".data || text == "ใช้จ่าย".data then .spentView
  else if text == "เป้าหมาย".data || text == "ดูเป้าหมาย".data || text == "goals".data then
    .goalsList
  else onMatch (matchVerbNameAmount "ตั้งเป้า".data orig)
    (fun p => .setGoal p.1 p.2) (fun _ =>
  onMatch (matchVerbNameAmount "ออม".data orig)
    (fun p => .addSaving p.1 p.2) (fun _ =>
  if text == "ความสำเร็จ".data || text == "achievements".data || text == "badge".data ||
      text == "แบดจ์".data then .achievementsView
  else onMatch (moodRegexMatch text) (fun d => .moodSet d) (fun _ =>
  onMatch (noteRegexMatch orig) (fun s => .journalNote s) (fun _ =>
  if text == "journal".data || text == "ดูบันทึก".data || text == "บันทึกวันนี้".data then
    .journalView
  else if text == "ล่าสุด".data || text == "รายการล่าสุด".data || text == "recent".data then
    .recentList
  else if text == "รายการหมวด".data || text == "หมวดทั้งหมด".data ||
      text == "categories".data then .allCats
  else if text == "สถิติ".data || text == "stats".data || text == "ข้อมูล".data then
    .statsView
  else if text == "help".data || text == "ช่วย".data || text == "ช่วยเหลือ".data ||
      text == "คำสั่ง".data then .helpView
  else .smartInput (smartMatch orig))))))

/-- Reply kinds of the smart-input step of the second /webhook handler. -/
inductive WReply
  | noReply
  | catSuggest (missing : List Char) (suggestions : List (List Char))
  | recordedW (tx : TxRec)
deriving DecidableEq

/-- Characters that are special in the source of new RegExp: a label containing one of
    these either makes the constructor throw (for example an unbalanced parenthesis or a
    dangling quantifier) or makes the lookup match non-literally (for example a dot). -/
def isRegexMetaChar (c : Char) : Bool :=
  c == '\\' || c == '^' || c == '$' || c == '.' || c == '|' || c == '?' || c == '*' ||
  c == '+' || c == '(' || c == ')' || c == '[' || c == ']' || c == '\x7b' || c == '\x7d'

/-- The semantics of the Category.findOne name lookup via new RegExp(label, i-flag)
    (server.js 2432 and 1684) for labels free of regex metacharacters, where the pattern
    is a literal: the first category whose name contains the label, case-insensitively.
    secondSmartInput consults it only for such labels; metacharacter labels are outside
    the model (see there). -/
def findCatContain (cats : List Category) (pat : List Char) : Option Category :=
  cats.find? (fun c => occursIn (lowerStr pat) (lowerStr c.name))

/-- Smart-input step of the second /webhook handler (server.js 2421-2490): on a pattern
    match, resolve the category by the case-insensitive containment lookup; if none is
    found, reply with the names of the first 8 expense-type categories as suggestions
    (always expense, server.js 2438) and write nothing; otherwise insert one transaction
    whose type is the category type and whose note is the trailing text (or empty), then
    run the streak update, saving the user only when the last-record day is not today.
    For a label containing a regex metacharacter the source feeds it to new RegExp,
    which can throw (a 500, nothing written) or match categories non-literally; those
    inputs are outside this model, marked by the none result. -/
def secondSmartInput (orig : List Char) (cats : List Category) (u : GamState)
    (todayStr yesterdayStr : String) : Option (WReply × List DbWrite × GamState) :=
  match smartMatch orig with
  | none => some (.noReply, [], u)
  | some (label, amtStr, nt) =>
    if label.any isRegexMetaChar then none
    else
      match findCatContain cats label with
      | none =>
        some (.catSuggest label
          (((cats.filter (fun c => decide (c.ctype = TxType.expense))).take 8).map
            (fun c => c.name)), [], u)
      | some c =>
        let tx : TxRec :=
          { txType := c.ctype, amount := parseFloatQ amtStr, categoryName := c.name,
            note := nt.getD [] }
        let u2 := webhookStreakUpdate u todayStr yesterdayStr
        some (.recordedW tx,
          .insertTransaction tx ::
            (if u.lastRecordDate = some todayStr then [] else [.saveUser]),
          u2)

/-- The two handlers registered for POST /webhook, in registration order: the LINE-SDK
    one calling handleEvent (server.js 93) and the plain one (server.js 1775). -/
inductive RouteHandler
  | lineWebhookHandler
  | plainWebhookHandler
deriving DecidableEq

def webhookRoute : List RouteHandler := [.lineWebhookHandler, .plainWebhookHandler]

/-- Whether a handler ever passes control to the next matching layer.  Express runs the
    layers of a route in registration order and stops at the first one that does not call
    next(); both /webhook handlers always end the response themselves (res.json or
    res.status(...).end / .json), so neither ever calls next(). -/
def passesToNext : RouteHandler → Bool
  | .lineWebhookHandler => false
  | .plainWebhookHandler => false

/-- Express dispatch over the registered layers of one route. -/
def dispatchRoute : List RouteHandler → Option RouteHandler
  | [] => Option.none
  | h :: rest => if passesToNext h then dispatchRoute rest else some h

/-- Follows the words of the spec (section 4.2 step 3): type inference is income exactly
    when the raw text contains a recognized income keyword.  Comparison definition for
    the refinement claims; the code definitions above are the authority. -/
def specInferredType (text : List Char) : TxType :=
  if incomeKeywords.any (fun kw => occursIn kw text) then .income else .expense

/-- Follows the words of the spec (section 4.2 step 3): resolution by (a) exact
    case-insensitive name match of the label, then (b) case-insensitive containment of
    the label inside a category name, then (c) a default Others category of the inferred
    type.  Comparison definition for claim C5. -/
def specResolveCategory (cats : List Category) (label : List Char) (ty : TxType) :
    Option Category :=
  ((cats.find? (fun c => nameEqCI c.name label)).orElse (fun _ =>
    cats.find? (fun c => occursIn (lowerStr label) (lowerStr c.name)))).orElse (fun _ =>
    cats.find? (fun c => decide (c.ctype = ty) && c.name == "อื่นๆ".data))

/-- Follows the words of the spec (section 4.2 step 4): suggestion names are the first n
    categories of the inferred type.  Comparison definition for claim C7. -/
def specSuggestions (cats : List Category) (ty : TxType) (n : Nat) : List (List Char) :=
  ((cats.filter (fun c => decide (c.ctype = ty))).take n).map (fun c => c.name)

/-- The resolution order handleEvent actually implements, written as an orElse chain
    (the amended form of claim C5): the raw-label exact match overrides; otherwise exact
    cleaned-name match, else a default-named category of the inferred type, else the
    first category of the inferred type - with no containment step. -/
def amendedResolve (cats : List Category) (categoryName twn : List Char) (ty : TxType) :
    Option Category × TxType :=
  match (if twn.isEmpty then Option.none
         else cats.find? (fun c => nameEqCI c.name twn)) with
  | some c => (some c, c.ctype)
  | none =>
    (((cats.find? (fun c => nameEqCI c.name categoryName)).orElse (fun _ =>
        cats.find? (fun c => decide (c.ctype = ty) && isDefaultName c.name))).orElse
      (fun _ => cats.find? (fun c => decide (c.ctype = ty))), ty)

/-- Database writes the User document can receive. -/
def isUserDocWrite : DbWrite → Bool
  | .insertUser => true
  | .saveUser => true
  | _ => false

/- ===================== helper lemmas ===================== -/

theorem unlock_of_mem {l : List String} {a : String} (h : a ∈ l) :
    unlockAchievement l a = l := by
  simp [unlockAchievement, h]

theorem mem_unlock_self (l : List String) (a : String) : a ∈ unlockAchievement l a := by
  unfold unlockAchievement
  split
  · next h => exact List.elem_iff.mp h
  · exact List.mem_append_right _ (List.mem_singleton.mpr rfl)

theorem mem_unlock_mono {l : List String} {b : String} (a : String) (h : b ∈ l) :
    b ∈ unlockAchievement l a := by
  unfold unlockAchievement
  split
  · exact h
  · exact List.mem_append_left _ h

theorem not_mem_unlock {l : List String} {a b : String} (hb : b ∉ l) (hne : b ≠ a) :
    b ∉ unlockAchievement l a := by
  unfold unlockAchievement
  split
  · exact hb
  · intro hmem
    rcases List.mem_append.mp hmem with h | h
    · exact hb h
    · exact hne (List.mem_singleton.mp h)

theorem count_unlock_ne {l : List String} {a b : String} (hne : b ≠ a) :
    (unlockAchievement l a).count b = l.count b := by
  unfold unlockAchievement
  split
  · rfl
  · rw [List.count_append]
    have h0 : List.count b [a] = 0 := by
      rw [List.count_eq_zero]
      simp [hne]
    rw [h0]
    exact Nat.add_zero _

/-- The achievement chain of the webhook update for a new streak value s1. -/
theorem week_mem_chain (ach : List String) (s1 : Nat) (h7 : s1 = 7) :
    "week_streak" ∈
      unlockAchievement
        (if s1 = 30 then
          unlockAchievement
            (if s1 = 7 then unlockAchievement ach "week_streak" else ach) "month_streak"
         else (if s1 = 7 then unlockAchievement ach "week_streak" else ach))
        "first_record" := by
  subst h7
  rw [if_neg (by decide), if_pos rfl]
  exact mem_unlock_mono _ (mem_unlock_self _ _)

theorem month_mem_chain (ach : List String) (s1 : Nat) (h30 : s1 = 30) :
    "month_streak" ∈
      unlockAchievement
        (if s1 = 30 then
          unlockAchievement
            (if s1 = 7 then unlockAchievement ach "week_streak" else ach) "month_streak"
         else (if s1 = 7 then unlockAchievement ach "week_streak" else ach))
        "first_record" := by
  subst h30
  rw [if_pos rfl]
  exact mem_unlock_mono _ (mem_unlock_self _ _)

theorem count_week_chain (ach : List String) (s1 : Nat)
    (hmem : "week_streak" ∈ ach) :
    (unlockAchievement
      (if s1 = 30 then
        unlockAchievement
          (if s1 = 7 then unlockAchievement ach "week_streak" else ach) "month_streak"
       else (if s1 = 7 then unlockAchievement ach "week_streak" else ach))
      "first_record").count "week_streak" = ach.count "week_streak" := by
  have h7 : (if s1 = 7 then unlockAchievement ach "week_streak" else ach) = ach := by
    split
    · exact unlock_of_mem hmem
    · rfl
  rw [count_unlock_ne (show "week_streak" ≠ "first_record" by decide), h7]
  split
  · exact count_unlock_ne (show "week_streak" ≠ "month_streak" by decide)
  · rfl

theorem count_month_chain (ach : List String) (s1 : Nat)
    (hmem : "month_streak" ∈ ach) :
    (unlockAchievement
      (if s1 = 30 then
        unlockAchievement
          (if s1 = 7 then unlockAchievement ach "week_streak" else ach) "month_streak"
       else (if s1 = 7 then unlockAchievement ach "week_streak" else ach))
      "first_record").count "month_streak" = ach.count "month_streak" := by
  have hY : "month_streak" ∈ (if s1 = 7 then unlockAchievement ach "week_streak" else ach) := by
    split
    · exact mem_unlock_mono _ hmem
    · exact hmem
  have hYc : (if s1 = 7 then unlockAchievement ach "week_streak" else ach).count
      "month_streak" = ach.count "month_streak" := by
    split
    · exact count_unlock_ne (show "month_streak" ≠ "week_streak" by decide)
    · rfl
  rw [count_unlock_ne (show "month_streak" ≠ "first_record" by decide)]
  split
  · rw [unlock_of_mem hY]
    exact hYc
  · exact hYc

theorem sim_week_mem_chain (ach : List String) (s1 : Nat) (h7 : s1 = 7) :
    "week_streak" ∈
      unlockAchievement
        (if s1 = 7 then unlockAchievement ach "week_streak" else ach) "first_record" := by
  subst h7
  rw [if_pos rfl]
  exact mem_unlock_mono _ (mem_unlock_self _ _)

theorem sim_month_not_mem_chain (ach : List String) (s1 : Nat)
    (hnm : "month_streak" ∉ ach) :
    "month_streak" ∉
      unlockAchievement
        (if s1 = 7 then unlockAchievement ach "week_streak" else ach) "first_record" := by
  refine not_mem_unlock ?_ (by decide)
  split
  · exact not_mem_unlock hnm (by decide)
  · exact hnm

theorem takeWhile_of_all {p : Char → Bool} {l : List Char} (h : l.all p = true) :
    l.takeWhile p = l := by
  induction l with
  | nil => rfl
  | cons c r ih =>
    rw [List.all_cons, Bool.and_eq_true] at h
    simp [List.takeWhile_cons, h.1, ih h.2]

theorem dropWhile_of_all {p : Char → Bool} {l : List Char} (h : l.all p = true) :
    l.dropWhile p = [] := by
  induction l with
  | nil => rfl
  | cons c r ih =>
    rw [List.all_cons, Bool.and_eq_true] at h
    simp [List.dropWhile_cons, h.1, ih h.2]

theorem all_dropWhile {p q : Char → Bool} {l : List Char} (h : l.all p = true) :
    (l.dropWhile q).all p = true := by
  induction l with
  | nil => rfl
  | cons c r ih =>
    rw [List.all_cons, Bool.and_eq_true] at h
    rw [List.dropWhile_cons]
    split
    · exact ih h.2
    · rw [List.all_cons, Bool.and_eq_true]
      exact ⟨h.1, h.2⟩

theorem all_rev {p : Char → Bool} {l : List Char} (h : l.all p = true) :
    l.reverse.all p = true := by
  rw [List.all_eq_true] at h ⊢
  intro x hx
  exact h x (List.mem_reverse.mp hx)

theorem all_trimJS {p : Char → Bool} {l : List Char} (h : l.all p = true) :
    (trimJS l).all p = true :=
  all_rev (all_dropWhile (all_rev (all_dropWhile h)))

theorem all_num_of_all_digit {l : List Char} (h : l.all isDigitChar = true) :
    l.all isNumChar = true := by
  rw [List.all_eq_true] at h ⊢
  intro x hx
  simp [isNumChar, h x hx]

theorem findNumberMatch_none {l : List Char} (h : l.all (fun c => !isNumChar c) = true) :
    findNumberMatch l = none := by
  induction l with
  | nil => rfl
  | cons c r ih =>
    rw [List.all_cons, Bool.and_eq_true] at h
    have hc : isNumChar c = false := by simpa using h.1
    simp [findNumberMatch, hc, ih h.2]

theorem findNumberMatch_digits {digits : List Char} (hne : digits ≠ [])
    (hdig : digits.all isDigitChar = true) :
    findNumberMatch digits = some ([], digits, []) := by
  obtain ⟨d, ds, rfl⟩ := List.exists_cons_of_ne_nil hne
  have hall : (d :: ds).all isNumChar = true := all_num_of_all_digit hdig
  have hnum : isNumChar d = true := by
    rw [List.all_cons, Bool.and_eq_true] at hall
    exact hall.1
  simp [findNumberMatch, hnum, takeWhile_of_all hall, dropWhile_of_all hall]

theorem findNumberMatch_struct {label digits : List Char}
    (hlab : label.all (fun c => !isNumChar c) = true)
    (hne : digits ≠ []) (hdig : digits.all isDigitChar = true) :
    findNumberMatch (label ++ ' ' :: digits) = some (label ++ [' '], digits, []) := by
  induction label with
  | nil =>
    have hsp : isNumChar ' ' = false := by decide
    simp [findNumberMatch, hsp, findNumberMatch_digits hne hdig]
  | cons c r ih =>
    rw [List.all_cons, Bool.and_eq_true] at hlab
    have hc : isNumChar c = false := by simpa using hlab.1
    simp [findNumberMatch, hc, ih hlab.2]

theorem parseFloatQ_digits {digits : List Char} (hne : digits ≠ [])
    (hdig : digits.all isDigitChar = true) :
    parseFloatQ digits = some ((digitsToNat digits : ℚ)) := by
  have hE : digits.isEmpty = false := by
    cases digits
    · exact absurd rfl hne
    · rfl
  simp [parseFloatQ, takeWhile_of_all hdig, dropWhile_of_all hdig, hE]

theorem filter_digits_no_comma {digits : List Char} (hdig : digits.all isDigitChar = true) :
    digits.filter (fun c => !(c == ',')) = digits := by
  rw [List.filter_eq_self]
  intro a ha
  have hd : isDigitChar a = true := by
    rw [List.all_eq_true] at hdig
    exact hdig a ha
  cases hbe : (a == ',') with
  | false => rfl
  | true =>
    rw [eq_of_beq hbe] at hd
    exact absurd hd (by decide)

theorem digit_plus_false {c : Char} (h : isDigitChar c = true) : (c == '+') = false := by
  cases hbe : (c == '+') with
  | false => rfl
  | true =>
    rw [eq_of_beq hbe] at h
    exact absurd h (by decide)

theorem occursIn_plus_false {t : List Char} (h : ∀ c ∈ t, (c == '+') = false) :
    occursIn "+".data t = false := by
  induction t with
  | nil => rfl
  | cons c r ih =>
    have hc := h c (List.mem_cons_self c r)
    have hr : ∀ x ∈ r, (x == '+') = false := fun x hx => h x (List.mem_cons_of_mem c hx)
    simp [occursIn, begins, hc, ih hr]

theorem classifyKeywords_isSome {text twn : List Char}
    (h : occursIn "+".data text = false) :
    ∃ r, classifyKeywords text twn = some r := by
  unfold classifyKeywords
  cases hf : incomeKeywords.find? (fun kw => occursIn kw text) with
  | none =>
    cases hf2 : expenseKeywords.find? (fun kw => occursIn kw text) with
    | none => exact ⟨_, rfl⟩
    | some kw => exact ⟨_, rfl⟩
  | some kw =>
    have hkw : occursIn kw text = true := by
      have := List.find?_some hf
      simpa using this
    have hne : ¬kw = "+".data := by
      intro he
      rw [he, h] at hkw
      cases hkw
    show ∃ r,
      (if kw = "+".data then none
       else some (TxType.income, trimJS (removeAll kw twn))) = some r
    rw [if_neg hne]
    exact ⟨_, rfl⟩

theorem heCommand_false_of_space {t : List Char} (h : ' ' ∈ t) :
    heCommand (lowerStr t) = false := by
  have h2 : ' ' ∈ lowerStr t := by
    have he : lowerChar ' ' = ' ' := by decide
    exact he ▸ List.mem_map_of_mem lowerChar h
  unfold heCommand
  have n1 : (lowerStr t == "สรุป".data) = false := by
    rw [beq_eq_false_iff_ne]
    intro he
    rw [he] at h2
    exact absurd h2 (by decide)
  have n2 : (lowerStr t == "summary".data) = false := by
    rw [beq_eq_false_iff_ne]
    intro he
    rw [he] at h2
    exact absurd h2 (by decide)
  rw [n1, n2]
  rfl

theorem heResolve_override {cats : List Category} {twn : List Char} {cat : Category}
    {cn : List Char} {ty : TxType} (hne : twn.isEmpty = false)
    (hfind : cats.find? (fun c => nameEqCI c.name twn) = some cat) :
    heResolveCategory cats cn twn ty = (some cat, cat.ctype) := by
  simp [heResolveCategory, hne, hfind]

/- ===================== C2 ===================== -/

/-- C2: streak law of both gamification update paths (the second /webhook handler and
    /api/simulate-line): when the last-record day is yesterday the streak increments by
    exactly 1; when it is any other day distinct from today, including null, the streak
    resets to 1; and when the last-record day is already today the whole user state -
    streak, last-record date and achievements - is left untouched. -/
theorem c2_streak_law (u : GamState) (td yd : String) (hne : td ≠ yd) :
    (u.lastRecordDate = some yd →
      (webhookStreakUpdate u td yd).streak = u.streak + 1 ∧
      (simulateStreakUpdate u td yd).streak = u.streak + 1) ∧
    (u.lastRecordDate ≠ some td → u.lastRecordDate ≠ some yd →
      (webhookStreakUpdate u td yd).streak = 1 ∧
      (simulateStreakUpdate u td yd).streak = 1) ∧
    (u.lastRecordDate = some td →
      webhookStreakUpdate u td yd = u ∧ simulateStreakUpdate u td yd = u) := by
  refine ⟨?_, ?_, ?_⟩
  · intro h
    constructor <;> simp [webhookStreakUpdate, simulateStreakUpdate, h, Ne.symm hne]
  · intro h1 h2
    constructor <;> simp [webhookStreakUpdate, simulateStreakUpdate, h1, h2]
  · intro h
    constructor <;> simp [webhookStreakUpdate, simulateStreakUpdate, h]

/-- Witness for C2 at a concrete user state and dates. -/
theorem c2_streak_law_witness :
    (webhookStreakUpdate ⟨3, some "2026-10-10", []⟩ "2026-10-11" "2026-10-10").streak =
      3 + 1 ∧
    (webhookStreakUpdate ⟨5, some "2026-10-01", []⟩ "2026-10-11" "2026-10-10").streak = 1 ∧
    webhookStreakUpdate ⟨5, some "2026-10-11", []⟩ "2026-10-11" "2026-10-10" =
      ⟨5, some "2026-10-11", []⟩ :=
  ⟨((c2_streak_law ⟨3, some "2026-10-10", []⟩ "2026-10-11" "2026-10-10"
      (by decide)).1 (by decide)).1,
   (((c2_streak_law ⟨5, some "2026-10-01", []⟩ "2026-10-11" "2026-10-10"
      (by decide)).2.1 (by decide) (by decide)).1),
   ((c2_streak_law ⟨5, some "2026-10-11", []⟩ "2026-10-11" "2026-10-10"
      (by decide)).2.2 (by decide)).1⟩

/- ===================== C3 ===================== -/

/-- C3 counterexample: in the /api/simulate-line update path a streak that becomes
    exactly 30 does not unlock month_streak, because that path has no month_streak check
    at all (server.js 1731-1736), contradicting the claim about every update path. -/
theorem c3_counterexample :
    (simulateStreakUpdate ⟨29, some "2026-10-10", ["first_record", "week_streak"]⟩
      "2026-10-11" "2026-10-10").streak = 30 ∧
    "month_streak" ∉ (simulateStreakUpdate ⟨29, some "2026-10-10",
      ["first_record", "week_streak"]⟩ "2026-10-11" "2026-10-10").achievements := by
  decide

/-- C3 (amended): in the webhook update path a streak that becomes exactly 7 or exactly
    30 unlocks week_streak or month_streak, and an already-present badge is never
    duplicated (its count is unchanged); in the simulate-line path only week_streak is
    checked, so month_streak is never added there; both updates are total functions, so
    re-crossing a threshold merely no-ops. -/
theorem c3_amended (u : GamState) (td yd : String) :
    (u.lastRecordDate ≠ some td → (webhookStreakUpdate u td yd).streak = 7 →
      "week_streak" ∈ (webhookStreakUpdate u td yd).achievements) ∧
    (u.lastRecordDate ≠ some td → (webhookStreakUpdate u td yd).streak = 30 →
      "month_streak" ∈ (webhookStreakUpdate u td yd).achievements) ∧
    ("week_streak" ∈ u.achievements →
      (webhookStreakUpdate u td yd).achievements.count "week_streak" =
        u.achievements.count "week_streak") ∧
    ("month_streak" ∈ u.achievements →
      (webhookStreakUpdate u td yd).achievements.count "month_streak" =
        u.achievements.count "month_streak") ∧
    (u.lastRecordDate ≠ some td → (simulateStreakUpdate u td yd).streak = 7 →
      "week_streak" ∈ (simulateStreakUpdate u td yd).achievements) ∧
    ("month_streak" ∉ u.achievements →
      "month_streak" ∉ (simulateStreakUpdate u td yd).achievements) := by
  by_cases htoday : u.lastRecordDate = some td
  · exact ⟨fun h => absurd htoday h, fun h => absurd htoday h,
      fun _ => by simp [webhookStreakUpdate, htoday],
      fun _ => by simp [webhookStreakUpdate, htoday],
      fun h => absurd htoday h,
      fun hnm => by simpa [simulateStreakUpdate, htoday] using hnm⟩
  · have hw : webhookStreakUpdate u td yd =
        { streak := if u.lastRecordDate = some yd then u.streak + 1 else 1,
          lastRecordDate := some td,
          achievements :=
            unlockAchievement
              (if (if u.lastRecordDate = some yd then u.streak + 1 else 1) = 30 then
                unlockAchievement
                  (if (if u.lastRecordDate = some yd then u.streak + 1 else 1) = 7 then
                    unlockAchievement u.achievements "week_streak"
                  else u.achievements) "month_streak"
              else
                (if (if u.lastRecordDate = some yd then u.streak + 1 else 1) = 7 then
                  unlockAchievement u.achievements "week_streak"
                else u.achievements)) "first_record" } := by
      unfold webhookStreakUpdate
      rw [if_neg htoday]
    have hs : simulateStreakUpdate u td yd =
        { streak := if u.lastRecordDate = some yd then u.streak + 1 else 1,
          lastRecordDate := some td,
          achievements :=
            unlockAchievement
              (if (if u.lastRecordDate = some yd then u.streak + 1 else 1) = 7 then
                unlockAchievement u.achievements "week_streak"
              else u.achievements) "first_record" } := by
      unfold simulateStreakUpdate
      rw [if_neg htoday]
    refine ⟨?_, ?_, ?_, ?_, ?_, ?_⟩
    · intro _ h7
      rw [hw] at h7 ⊢
      exact week_mem_chain _ _ h7
    · intro _ h30
      rw [hw] at h30 ⊢
      exact month_mem_chain _ _ h30
    · intro hmem
      rw [hw]
      exact count_week_chain _ _ hmem
    · intro hmem
      rw [hw]
      exact count_month_chain _ _ hmem
    · intro _ h7
      rw [hs] at h7 ⊢
      exact sim_week_mem_chain _ _ h7
    · intro hnm
      rw [hs]
      exact sim_month_not_mem_chain _ _ hnm

/-- Witness for C3 (amended) at concrete user states. -/
theorem c3_amended_witness :
    "week_streak" ∈ (webhookStreakUpdate ⟨6, some "2026-10-10", []⟩
      "2026-10-11" "2026-10-10").achievements ∧
    "month_streak" ∈ (webhookStreakUpdate ⟨29, some "2026-10-10", ["week_streak"]⟩
      "2026-10-11" "2026-10-10").achievements ∧
    "month_streak" ∉ (simulateStreakUpdate ⟨29, some "2026-10-10", ["week_streak"]⟩
      "2026-10-11" "2026-10-10").achievements :=
  ⟨(c3_amended ⟨6, some "2026-10-10", []⟩ "2026-10-11" "2026-10-10").1
      (by decide) (by decide),
   (c3_amended ⟨29, some "2026-10-10", ["week_streak"]⟩ "2026-10-11" "2026-10-10").2.1
      (by decide) (by decide),
   (c3_amended ⟨29, some "2026-10-10", ["week_streak"]⟩ "2026-10-11" "2026-10-10").2.2.2.2.2
      (by decide)⟩

/- ===================== C1 ===================== -/

/-- C1 counterexample: the label "a+b" is an exact case-insensitive match of the existing
    expense category "a+b", yet the message "a+b 50" creates no Transaction at all: the
    income-keyword scan hits "+" and new RegExp evaluation throws, so the handler replies
    with the generic error text and writes nothing - contradicting the claim that a
    Transaction with the category type is always created. -/
theorem c1_counterexample :
    (([⟨"a+b".data, TxType.expense⟩] : List Category).find?
      (fun c => nameEqCI c.name "a+b".data) =
        some (⟨"a+b".data, TxType.expense⟩ : Category)) ∧
    handleEvent true "a+b 50".data [⟨"a+b".data, TxType.expense⟩] =
      (HEReply.errorText, []) ∧
    isRecordedReply (handleEvent true "a+b 50".data
      [⟨"a+b".data, TxType.expense⟩]).1 = false := by
  decide

/-- C1 (amended): for a message of the shape label-space-amount, where the label contains
    no digit, comma or plus character (so the number extraction picks up the amount and
    the keyword scan cannot throw), the label is already trimmed, and the label is an
    exact case-insensitive match of an existing category - the first such category in
    storage order - handleEvent creates exactly one Transaction whose type is that
    category type, even when the label contains an income or expense keyword that would
    otherwise infer the opposite type. -/
theorem c1_exact_name_sets_type
    (label digits : List Char) (cats : List Category) (cat : Category)
    (hlab : label.all (fun c => !isNumChar c && !(c == '+')) = true)
    (hd : digits ≠ []) (hdig : digits.all isDigitChar = true)
    (htrim1 : trimJS (label ++ ' ' :: digits) = label ++ ' ' :: digits)
    (htrim2 : trimJS (label ++ [' ']) = label)
    (hne : label ≠ [])
    (hfind : cats.find? (fun c => nameEqCI c.name label) = some cat) :
    handleEvent true (label ++ ' ' :: digits) cats =
      (HEReply.recordedFlex
        { txType := cat.ctype, amount := some ((digitsToNat digits : ℚ)),
          categoryName := cat.name, note := label ++ ' ' :: digits },
       [DbWrite.insertTransaction
        { txType := cat.ctype, amount := some ((digitsToNat digits : ℚ)),
          categoryName := cat.name, note := label ++ ' ' :: digits }]) := by
  have hsp : ' ' ∈ label ++ ' ' :: digits :=
    List.mem_append_right _ (List.mem_cons_self _ _)
  have hcmd := heCommand_false_of_space hsp
  have hlab1 : label.all (fun c => !isNumChar c) = true := by
    rw [List.all_eq_true] at hlab ⊢
    intro x hx
    exact (Bool.and_eq_true _ _).mp (hlab x hx) |>.1
  have hnum := findNumberMatch_struct hlab1 hd hdig
  have hplus : ∀ c ∈ label ++ ' ' :: digits, (c == '+') = false := by
    intro c hc
    rcases List.mem_append.mp hc with h | h
    · simpa using ((Bool.and_eq_true _ _).mp ((List.all_eq_true).mp hlab _ h)).2
    · rcases List.mem_cons.mp h with rfl | h
      · decide
      · exact digit_plus_false ((List.all_eq_true).mp hdig _ h)
  obtain ⟨⟨ty, itm⟩, hck⟩ :=
    @classifyKeywords_isSome _ label (occursIn_plus_false hplus)
  have hempty : label.isEmpty = false := by
    cases label
    · exact absurd rfl hne
    · rfl
  have hres : ∀ cn ty2, heResolveCategory cats cn label ty2 = (some cat, cat.ctype) :=
    fun cn ty2 => heResolve_override hempty hfind
  have hamt : parseFloatQ (digits.filter (fun c => !(c == ','))) =
      some ((digitsToNat digits : ℚ)) := by
    rw [filter_digits_no_comma hdig]
    exact parseFloatQ_digits hd hdig
  simp only [handleEvent, htrim1, hcmd, Bool.false_eq_true, if_false, if_true, hnum,
    List.append_nil, htrim2, hck, hres, hamt, List.nil_append]

/-- Witness for C1 (amended) at end-to-end scenario 3: the label is both the income
    keyword and the income category name "เงินเดือน". -/
theorem c1_exact_name_sets_type_witness :
    handleEvent true ("เงินเดือน".data ++ ' ' :: "25000".data)
      [⟨"เงินเดือน".data, TxType.income⟩] =
      (HEReply.recordedFlex
        { txType := TxType.income, amount := some ((digitsToNat "25000".data : ℚ)),
          categoryName := "เงินเดือน".data,
          note := "เงินเดือน".data ++ ' ' :: "25000".data },
       [DbWrite.insertTransaction
        { txType := TxType.income, amount := some ((digitsToNat "25000".data : ℚ)),
          categoryName := "เงินเดือน".data,
          note := "เงินเดือน".data ++ ' ' :: "25000".data }]) :=
  c1_exact_name_sets_type "เงินเดือน".data "25000".data
    [⟨"เงินเดือน".data, TxType.income⟩] ⟨"เงินเดือน".data, TxType.income⟩
    (by decide) (by decide) (by decide) (by decide) (by decide) (by decide) (by decide)

/- ===================== C4 ===================== -/

/-- C4 counterexample: the message "," contains no digit - no numeric substring in the
    ordinary sense - and matches no command phrase, yet the classifier does not stay
    silent: the pattern [\d,]+ matches the bare comma, parseFloat yields NaN, the
    transaction save fails the number cast, and the handler replies with the generic
    error text. -/
theorem c4_counterexample :
    handleEvent true ",".data [⟨"อื่นๆ".data, TxType.expense⟩] =
      (HEReply.errorText, []) ∧
    HEReply.errorText ≠ HEReply.silent := by
  decide

/-- C4 (amended): for every message containing no character of the amount pattern class
    (no digit and no comma) and not matching a summary command phrase, the reachable
    handler produces no reply at all and performs no database write. -/
theorem c4_no_number_silent (t : List Char) (cats : List Category)
    (h1 : t.all (fun c => !isNumChar c) = true)
    (h2 : heCommand (lowerStr (trimJS t)) = false) :
    handleEvent true t cats = (HEReply.silent, []) := by
  have h3 : findNumberMatch (trimJS t) = none := findNumberMatch_none (all_trimJS h1)
  simp only [handleEvent, h2, Bool.false_eq_true, if_false, if_true, h3]

/-- Witness for C4 (amended) on a conversational message with no number. -/
theorem c4_no_number_silent_witness :
    handleEvent true "สวัสดีครับ".data [] = (HEReply.silent, []) :=
  c4_no_number_silent "สวัสดีครับ".data [] (by decide) (by decide)

/- ===================== C5 ===================== -/

/-- C5 counterexample: with categories ชานม and อื่นๆ (both expense), the label ชา is a
    case-insensitive substring of the category name ชานม, so the resolution order of the
    spec - exact, then containment, then Others - picks ชานม; but handleEvent has no
    containment step and records the transaction under อื่นๆ. -/
theorem c5_counterexample :
    (handleEvent true "ชา 45".data
      ([⟨"ชานม".data, TxType.expense⟩, ⟨"อื่นๆ".data, TxType.expense⟩] :
        List Category)).1 =
      HEReply.recordedFlex
        ⟨TxType.expense, some (45 : ℚ), "อื่นๆ".data, "ชา 45".data⟩ ∧
    specResolveCategory
      ([⟨"ชานม".data, TxType.expense⟩, ⟨"อื่นๆ".data, TxType.expense⟩] : List Category)
      "ชา".data TxType.expense = some (⟨"ชานม".data, TxType.expense⟩ : Category) ∧
    ("อื่นๆ".data ≠ "ชานม".data) := by
  decide

/-- C5 (amended): the resolution order handleEvent actually implements is the
    exact-raw-label override, else exact cleaned-name match, else a default-named
    category of the inferred type, else the first category of the inferred type; there
    is no substring containment step. -/
theorem c5_resolution_order (cats : List Category) (cn twn : List Char) (ty : TxType) :
    heResolveCategory cats cn twn ty = amendedResolve cats cn twn ty := by
  unfold heResolveCategory amendedResolve
  dsimp only
  cases hx : (if twn.isEmpty then Option.none
              else cats.find? (fun c => nameEqCI c.name twn)) with
  | some c => rfl
  | none =>
    cases h1 : cats.find? (fun c => nameEqCI c.name cn) with
    | some c => rfl
    | none =>
      cases h2 : cats.find? (fun c => decide (c.ctype = ty) && isDefaultName c.name) with
      | some c => rfl
      | none => rfl

/- ===================== C10 ===================== -/

theorem handleEvent_writes (t : List Char) (cs : List Category) :
    (handleEvent true t cs).2 =
      (match (handleEvent true t cs).1 with
       | HEReply.recordedFlex tx => [DbWrite.insertTransaction tx]
       | _ => []) := by
  unfold handleEvent
  dsimp only
  split
  · rfl
  · split
    · rfl
    · split
      · rfl
      · split
        · rfl
        · split
          · rfl
          · rfl

/-- C10: the handler actually reachable at POST /webhook is the first-registered one
    (the LINE-SDK handler running handleEvent); for an already-registered user it never
    writes to the User document, and on the successful smart-input path the single
    Transaction insert is the only persistent write. -/
theorem c10_reachable_handler_frame :
    dispatchRoute webhookRoute = some RouteHandler.lineWebhookHandler ∧
    (∀ t cs, ((handleEvent true t cs).2.all (fun w => !isUserDocWrite w)) = true) ∧
    (∀ t cs tx, (handleEvent true t cs).1 = HEReply.recordedFlex tx →
      (handleEvent true t cs).2 = [DbWrite.insertTransaction tx]) := by
  refine ⟨rfl, ?_, ?_⟩
  · intro t cs
    rw [handleEvent_writes]
    cases h : (handleEvent true t cs).1 <;> simp [isUserDocWrite]
  · intro t cs tx h
    rw [handleEvent_writes, h]

/-- Witness for C10 on end-to-end scenario 1. -/
theorem c10_reachable_handler_frame_witness :
    (handleEvent true "อาหาร 150".data
      ([⟨"อาหาร".data, TxType.expense⟩] : List Category)).2 =
      [DbWrite.insertTransaction
        ⟨TxType.expense, some (150 : ℚ), "อาหาร".data, "อาหาร 150".data⟩] :=
  c10_reachable_handler_frame.2.2 _ _ _ (by decide)

/- ===================== C7 ===================== -/

/-- C7 counterexample: for the message "รับ 100" against a group holding only the expense
    category อาหาร, the inferred type per the spec is income (keyword รับ) and the
    claimed suggestion list - the first categories of the inferred type - is empty; the
    second-handler code instead suggests the expense category names, and the reachable
    handler handleEvent replies with a fixed text carrying no suggestions at all. -/
theorem c7_counterexample :
    secondSmartInput "รับ 100".data ([⟨"อาหาร".data, TxType.expense⟩] : List Category)
      ⟨0, Option.none, []⟩ "2026-10-11" "2026-10-10" =
      some (WReply.catSuggest "รับ".data ["อาหาร".data], [], ⟨0, Option.none, []⟩) ∧
    specInferredType "รับ 100".data = TxType.income ∧
    specSuggestions ([⟨"อาหาร".data, TxType.expense⟩] : List Category) TxType.income 8 =
      [] ∧
    (["อาหาร".data] : List (List Char)) ≠ [] ∧
    handleEvent true "รับ 100".data ([⟨"อาหาร".data, TxType.expense⟩] : List Category) =
      (HEReply.catNotFound, []) := by
  decide

/-- C7 (amended): when the second-handler smart input parses a message whose label is
    free of regex metacharacters (so the name lookup is literal containment) and that
    lookup resolves no category, the reply carries the names of the first 8 expense-type
    categories (not of any inferred type) and nothing is written; and when handleEvent
    replies category-not-found (a fixed text with no suggestions), nothing is written
    either. -/
theorem c7_category_not_found (orig : List Char) (cats : List Category) (u : GamState)
    (td yd : String) (label amt : List Char) (nt : Option (List Char))
    (hm : smartMatch orig = some (label, amt, nt))
    (hmeta : label.any isRegexMetaChar = false)
    (hnone : findCatContain cats label = none) :
    secondSmartInput orig cats u td yd =
      some (WReply.catSuggest label
        (((cats.filter (fun c => decide (c.ctype = TxType.expense))).take 8).map
          (fun c => c.name)), [], u) ∧
    (∀ t2 cs2, (handleEvent true t2 cs2).1 = HEReply.catNotFound →
      (handleEvent true t2 cs2).2 = []) := by
  constructor
  · unfold secondSmartInput
    simp only [hm, hmeta, Bool.false_eq_true, if_false, hnone]
  · intro t2 cs2 h
    rw [handleEvent_writes, h]

/-- Witness for C7 (amended) at the concrete no-income-category input. -/
theorem c7_category_not_found_witness :
    secondSmartInput "รับ 100".data ([⟨"อาหาร".data, TxType.expense⟩] : List Category)
      ⟨0, Option.none, []⟩ "2026-10-11" "2026-10-10" =
      some (WReply.catSuggest "รับ".data ["อาหาร".data], [], ⟨0, Option.none, []⟩) :=
  (c7_category_not_found "รับ 100".data _ _ _ _ "รับ".data "100".data Option.none
    (by decide) (by decide) (by decide)).1

/- ===================== C6 support ===================== -/

theorem digit_not_ws {c : Char} (h : isDigitChar c = true) : isWsChar c = false := by
  cases hw : isWsChar c with
  | false => rfl
  | true =>
    exfalso
    simp only [isWsChar, Bool.or_eq_true, beq_iff_eq] at hw
    rcases hw with ((rfl | rfl) | rfl) | rfl <;> exact absurd h (by decide)

theorem amountNoteEnd_cons_not_digit {c : Char} {s : List Char}
    (h : isDigitChar c = false) : amountNoteEnd (c :: s) = none := by
  simp [amountNoteEnd, List.takeWhile_cons, h]

theorem wsTryFrom_none {α : Type} {P : List Char → Option α} {s : List Char} {k : Nat}
    (h : ∀ j, 1 ≤ j → j ≤ k → P (s.drop j) = none) : wsTryFrom P s k = none := by
  induction k with
  | zero => rfl
  | succ k ih =>
    have hk : P (s.drop (k + 1)) = none := h (k + 1) (by omega) (by omega)
    simp only [wsTryFrom, hk]
    exact ih (fun j h1 h2 => h j h1 (by omega))

theorem takeWhile_append_of_exists {p : Char → Bool} {l r : List Char}
    (h : ∃ x ∈ l, p x = false) : (l ++ r).takeWhile p = l.takeWhile p := by
  induction l with
  | nil =>
    obtain ⟨x, hx, _⟩ := h
    cases hx
  | cons c l' ih =>
    rw [List.cons_append, List.takeWhile_cons, List.takeWhile_cons]
    cases hc : p c with
    | false => rfl
    | true =>
      obtain ⟨x, hx, hpx⟩ := h
      rcases List.mem_cons.mp hx with rfl | hx'
      · rw [hc] at hpx
        cases hpx
      · rw [ih ⟨x, hx', hpx⟩]

theorem length_takeWhile_lt_of_last {p : Char → Bool} :
    ∀ {s : List Char} (hs : s ≠ []), p (s.getLast hs) = false →
      (s.takeWhile p).length < s.length
  | [], hs, _ => absurd rfl hs
  | [c], _, hlast => by
    have hc : p c = false := hlast
    simp [List.takeWhile_cons, hc]
  | c :: c2 :: t2, _, hlast => by
    have hlast2 : p ((c2 :: t2).getLast (List.cons_ne_nil c2 t2)) = false := by
      rw [← List.getLast_cons (List.cons_ne_nil c2 t2)]
      exact hlast
    have ih := length_takeWhile_lt_of_last (List.cons_ne_nil c2 t2) hlast2
    rw [List.takeWhile_cons]
    cases hc : p c with
    | false =>
      rw [if_neg (by decide)]
      simp
    | true =>
      rw [if_pos rfl]
      simp only [List.length_cons] at ih ⊢
      omega

theorem wsPlus_amountNote_none {s r : List Char} (hs : s ≠ [])
    (hnd : ∀ c ∈ s, isDigitChar c = false)
    (hlast : isWsChar (s.getLast hs) = false) :
    wsPlusThen amountNoteEnd (s ++ r) = none := by
  unfold wsPlusThen
  apply wsTryFrom_none
  intro j h1 h2
  have hex : ∃ x ∈ s, isWsChar x = false := ⟨s.getLast hs, List.getLast_mem hs, hlast⟩
  have htw : ((s ++ r).takeWhile isWsChar) = s.takeWhile isWsChar :=
    takeWhile_append_of_exists hex
  have hlt : (s.takeWhile isWsChar).length < s.length :=
    length_takeWhile_lt_of_last hs hlast
  have hj : j < s.length := by
    rw [htw] at h2
    omega
  rw [List.drop_append_of_le_length (le_of_lt hj)]
  have hne : s.drop j ≠ [] := by
    have hl : (s.drop j).length = s.length - j := List.length_drop _ _
    intro hnil
    rw [hnil] at hl
    simp at hl
    omega
  obtain ⟨c, tail, hct⟩ := List.exists_cons_of_ne_nil hne
  rw [hct, List.cons_append]
  apply amountNoteEnd_cons_not_digit
  apply hnd
  have hcm : c ∈ s.drop j := by
    rw [hct]
    exact List.mem_cons_self _ _
  exact List.drop_subset _ _ hcm

theorem amountNoteEnd_digits {digits : List Char} (hd : digits ≠ [])
    (hdig : digits.all isDigitChar = true) :
    amountNoteEnd digits = some (digits, Option.none) := by
  have hE : digits.isEmpty = false := by
    cases digits
    · exact absurd rfl hd
    · rfl
  simp [amountNoteEnd, takeWhile_of_all hdig, dropWhile_of_all hdig, hE]

theorem takeWhile_ws_digits {digits tail2 : List Char} (hd : digits ≠ [])
    (hdig : digits.all isDigitChar = true) :
    (' ' :: digits ++ tail2).takeWhile isWsChar = [' '] := by
  obtain ⟨d, ds, rfl⟩ := List.exists_cons_of_ne_nil hd
  have hdg : isDigitChar d = true := by
    rw [List.all_cons, Bool.and_eq_true] at hdig
    exact hdig.1
  have hdw : isWsChar d = false := digit_not_ws hdg
  have hsw : isWsChar ' ' = true := by decide
  simp [List.takeWhile_cons, hsw, hdw]

theorem wsPlus_amountNote_digits_only {digits : List Char} (hd : digits ≠ [])
    (hdig : digits.all isDigitChar = true) :
    wsPlusThen amountNoteEnd (' ' :: digits) = some (digits, Option.none) := by
  unfold wsPlusThen
  have htw : ((' ' :: digits).takeWhile isWsChar) = [' '] := by
    have := @takeWhile_ws_digits digits [] hd hdig
    rwa [List.append_nil] at this
  rw [htw]
  show wsTryFrom amountNoteEnd (' ' :: digits) 1 = some (digits, Option.none)
  simp only [wsTryFrom, List.drop_succ_cons, List.drop_zero,
    amountNoteEnd_digits hd hdig]

theorem takeWhile_digits_stop {digits nt : List Char}
    (hdig : digits.all isDigitChar = true) :
    (digits ++ ' ' :: nt).takeWhile isDigitChar = digits ∧
    (digits ++ ' ' :: nt).dropWhile isDigitChar = ' ' :: nt := by
  have hspd : isDigitChar ' ' = false := by decide
  induction digits with
  | nil =>
    constructor <;> simp [List.takeWhile_cons, List.dropWhile_cons, hspd]
  | cons c r ih =>
    rw [List.all_cons, Bool.and_eq_true] at hdig
    have ihr := ih hdig.2
    constructor
    · rw [List.cons_append, List.takeWhile_cons, if_pos hdig.1, ihr.1]
    · rw [List.cons_append, List.dropWhile_cons, if_pos hdig.1, ihr.2]

theorem wsPlus_amountNote_with_note {digits nt : List Char} (hd : digits ≠ [])
    (hdig : digits.all isDigitChar = true) (hnt : nt ≠ [])
    (hnthead : isWsChar (nt.head hnt) = false)
    (hntdot : nt.all dotChar = true) :
    wsPlusThen amountNoteEnd (' ' :: digits ++ ' ' :: nt) =
      some (digits, some nt) := by
  obtain ⟨h0, tl, rfl⟩ := List.exists_cons_of_ne_nil hnt
  have hh : isWsChar h0 = false := hnthead
  unfold wsPlusThen
  rw [takeWhile_ws_digits hd hdig]
  show wsTryFrom amountNoteEnd (' ' :: digits ++ ' ' :: h0 :: tl) 1 =
    some (digits, some (h0 :: tl))
  have hstop := @takeWhile_digits_stop digits (h0 :: tl) hdig
  have hA : amountNoteEnd (digits ++ ' ' :: h0 :: tl) = some (digits, some (h0 :: tl)) := by
    have hE : digits.isEmpty = false := by
      cases digits
      · exact absurd rfl hd
      · rfl
    have hEa : (digits ++ ' ' :: h0 :: tl).isEmpty = false := by
      cases digits <;> rfl
    have hsw : isWsChar ' ' = true := by decide
    simp [amountNoteEnd, hstop.1, hstop.2, hE, hEa, List.takeWhile_cons, hsw, hh, hntdot]
  simp only [List.cons_append, wsTryFrom, List.drop_succ_cons, List.drop_zero, hA]

theorem lazyDotPlus_cons {α : Type} (P : List Char → Option α) (acc : List Char)
    (c : Char) (rest : List Char) :
    lazyDotPlus P acc (c :: rest) =
      if dotChar c then
        match P rest with
        | some a => some (acc ++ [c], a)
        | none => lazyDotPlus P (acc ++ [c]) rest
      else none := rfl

theorem lazy_smart_append {rest0 : List Char} {a : List Char × Option (List Char)}
    (hP : wsPlusThen amountNoteEnd rest0 = some a) :
    ∀ (s : List Char), s ≠ [] → (∀ c ∈ s, dotChar c = true) →
      (∀ c ∈ s, isDigitChar c = false) →
      (∀ h : s ≠ [], isWsChar (s.getLast h) = false) →
      ∀ acc, lazyDotPlus (fun z => wsPlusThen amountNoteEnd z) acc (s ++ rest0) =
        some (acc ++ s, a) := by
  intro s
  induction s with
  | nil => intro h; exact absurd rfl h
  | cons c s' ih =>
    intro _ hdot hnd hlastws acc
    have hdc : dotChar c = true := hdot c (List.mem_cons_self _ _)
    rcases hs' : s' with _ | ⟨c2, t2⟩
    · subst hs'
      rw [show ([c] : List Char) ++ rest0 = c :: rest0 from rfl, lazyDotPlus_cons,
        if_pos hdc, hP]
    · subst hs'
      have hs'ne : (c2 :: t2 : List Char) ≠ [] := List.cons_ne_nil _ _
      have hnone : wsPlusThen amountNoteEnd ((c2 :: t2) ++ rest0) = none := by
        apply wsPlus_amountNote_none hs'ne
        · intro x hx
          exact hnd x (List.mem_cons_of_mem c hx)
        · have hgl : (c :: c2 :: t2 : List Char).getLast (List.cons_ne_nil _ _) =
              (c2 :: t2 : List Char).getLast hs'ne := List.getLast_cons hs'ne
          rw [← hgl]
          exact hlastws (List.cons_ne_nil _ _)
      have ihx := ih hs'ne
        (fun x hx => hdot x (List.mem_cons_of_mem c hx))
        (fun x hx => hnd x (List.mem_cons_of_mem c hx))
        (fun h => by
          rw [← List.getLast_cons h]
          exact hlastws (List.cons_ne_nil _ _))
        (acc ++ [c])
      rw [List.cons_append, lazyDotPlus_cons, if_pos hdc, hnone, ihx]
      show some (acc ++ [c] ++ c2 :: t2, a) = some (acc ++ c :: c2 :: t2, a)
      rw [← List.append_cons]

theorem smartMatch_no_note {label digits : List Char}
    (hl : label ≠ []) (hldot : ∀ c ∈ label, dotChar c = true)
    (hlnd : ∀ c ∈ label, isDigitChar c = false)
    (hlws : ∀ h : label ≠ [], isWsChar (label.getLast h) = false)
    (hd : digits ≠ []) (hdig : digits.all isDigitChar = true) :
    smartMatch (label ++ ' ' :: digits) = some (label, digits, Option.none) := by
  unfold smartMatch
  have h := lazy_smart_append (wsPlus_amountNote_digits_only hd hdig)
    label hl hldot hlnd hlws []
  rw [h, List.nil_append]

theorem smartMatch_with_note {label digits nt : List Char}
    (hl : label ≠ []) (hldot : ∀ c ∈ label, dotChar c = true)
    (hlnd : ∀ c ∈ label, isDigitChar c = false)
    (hlws : ∀ h : label ≠ [], isWsChar (label.getLast h) = false)
    (hd : digits ≠ []) (hdig : digits.all isDigitChar = true)
    (hnt : nt ≠ []) (hnthead : isWsChar (nt.head hnt) = false)
    (hntdot : nt.all dotChar = true) :
    smartMatch (label ++ ' ' :: digits ++ ' ' :: nt) =
      some (label, digits, some nt) := by
  unfold smartMatch
  rw [List.append_assoc]
  have h := lazy_smart_append
    (wsPlus_amountNote_with_note hd hdig hnt hnthead hntdot)
    label hl hldot hlnd hlws []
  rw [h, List.nil_append]

/- ===================== C6 ===================== -/

/-- C6 counterexample: through the handler actually reachable at /webhook (handleEvent),
    the input เดินทาง 50 ค่าแท็กซี่ creates an expense transaction of amount 50, but its
    note is the whole original text (server.js 468 stores text, with a comment saying
    so), not the trailing free text ค่าแท็กซี่ the claim requires - and the เดินทาง
    category is not even the one recorded, because the keyword ค่า is stripped and the
    label no longer matches. -/
theorem c6_counterexample :
    (handleEvent true "เดินทาง 50 ค่าแท็กซี่".data
      ([⟨"เดินทาง".data, TxType.expense⟩, ⟨"อื่นๆ".data, TxType.expense⟩] :
        List Category)).1 =
      HEReply.recordedFlex
        ⟨TxType.expense, some (50 : ℚ), "อื่นๆ".data, "เดินทาง 50 ค่าแท็กซี่".data⟩ ∧
    ("เดินทาง 50 ค่าแท็กซี่".data ≠ "ค่าแท็กซี่".data) := by
  decide

/-- C6 (amended): in the smart-input pattern of the second /webhook handler (the same
    pattern the simulate-line endpoint uses), for a label free of regex metacharacters
    (where the name lookup is literal containment), any trailing free text after the
    amount is stored as the note of the created transaction, and with no trailing text
    the note is empty; the scenario เดินทาง 50 ค่าแท็กซี่ yields an expense transaction
    of amount 50 and note ค่าแท็กซี่ on that path.  handleEvent, by contrast, stores the
    full original text (see the counterexample). -/
theorem c6_note_law (label digits nt : List Char) (cats : List Category) (c : Category)
    (u : GamState) (td yd : String)
    (hl : label ≠ []) (hldot : ∀ ch ∈ label, dotChar ch = true)
    (hlnd : ∀ ch ∈ label, isDigitChar ch = false)
    (hlws : ∀ h : label ≠ [], isWsChar (label.getLast h) = false)
    (hlmeta : label.any isRegexMetaChar = false)
    (hd : digits ≠ []) (hdig : digits.all isDigitChar = true)
    (hnt : nt ≠ []) (hnthead : isWsChar (nt.head hnt) = false)
    (hntdot : nt.all dotChar = true)
    (hcat : findCatContain cats label = some c) :
    secondSmartInput (label ++ ' ' :: digits ++ ' ' :: nt) cats u td yd =
      some (WReply.recordedW
        { txType := c.ctype, amount := parseFloatQ digits,
          categoryName := c.name, note := nt },
        DbWrite.insertTransaction
          { txType := c.ctype, amount := parseFloatQ digits,
            categoryName := c.name, note := nt } ::
          (if u.lastRecordDate = some td then [] else [DbWrite.saveUser]),
        webhookStreakUpdate u td yd) ∧
    secondSmartInput (label ++ ' ' :: digits) cats u td yd =
      some (WReply.recordedW
        { txType := c.ctype, amount := parseFloatQ digits,
          categoryName := c.name, note := [] },
        DbWrite.insertTransaction
          { txType := c.ctype, amount := parseFloatQ digits,
            categoryName := c.name, note := [] } ::
          (if u.lastRecordDate = some td then [] else [DbWrite.saveUser]),
        webhookStreakUpdate u td yd) := by
  constructor
  · unfold secondSmartInput
    simp only [smartMatch_with_note hl hldot hlnd hlws hd hdig hnt hnthead hntdot,
      hlmeta, Bool.false_eq_true, if_false, hcat, Option.getD_some]
  · unfold secondSmartInput
    simp only [smartMatch_no_note hl hldot hlnd hlws hd hdig,
      hlmeta, Bool.false_eq_true, if_false, hcat, Option.getD_none]

/-- Witness for C6 (amended) on end-to-end scenario 2. -/
theorem c6_note_law_witness :
    secondSmartInput ("เดินทาง".data ++ ' ' :: "50".data ++ ' ' :: "ค่าแท็กซี่".data)
      ([⟨"เดินทาง".data, TxType.expense⟩] : List Category)
      ⟨0, Option.none, []⟩ "2026-10-11" "2026-10-10" =
      some (WReply.recordedW
        { txType := TxType.expense, amount := parseFloatQ "50".data,
          categoryName := "เดินทาง".data, note := "ค่าแท็กซี่".data },
        [DbWrite.insertTransaction
          { txType := TxType.expense, amount := parseFloatQ "50".data,
            categoryName := "เดินทาง".data, note := "ค่าแท็กซี่".data },
         DbWrite.saveUser],
        webhookStreakUpdate ⟨0, Option.none, []⟩ "2026-10-11" "2026-10-10") :=
  (c6_note_law "เดินทาง".data "50".data "ค่าแท็กซี่".data
    ([⟨"เดินทาง".data, TxType.expense⟩] : List Category)
    (⟨"เดินทาง".data, TxType.expense⟩ : Category)
    ⟨0, Option.none, []⟩ "2026-10-11" "2026-10-10"
    (by decide) (by decide) (by decide)
    (fun h => by
      have hg : "เดินทาง".data.getLast h = 'ง' := rfl
      rw [hg]
      decide)
    (by decide) (by decide) (by decide) (by decide) (by decide) (by decide)
    (by decide)).1

/- ===================== C8 ===================== -/

/-- C8: a message that begins with any of the argument-taking command verbs - ตั้งงบ,
    ตั้งเป้า and ออม (VERB NAME AMOUNT), อารมณ์ (digit argument) or จด (text argument) -
    but does not match that command regex (for example ตั้งงบ with no amount) is not
    rejected as a malformed command: no literal command phrase and no other command
    regex can match such a text, so the dispatcher falls through to the smart-input
    pattern, which handles the text by its own rules. -/
theorem c8_malformed_command_fallthrough :
    (∀ rest, matchVerbNameAmount "ตั้งงบ".data ("ตั้งงบ".data ++ rest) = none →
      secondDispatch ("ตั้งงบ".data ++ rest) =
        WBranch.smartInput (smartMatch ("ตั้งงบ".data ++ rest))) ∧
    (∀ rest, matchVerbNameAmount "ตั้งเป้า".data ("ตั้งเป้า".data ++ rest) = none →
      secondDispatch ("ตั้งเป้า".data ++ rest) =
        WBranch.smartInput (smartMatch ("ตั้งเป้า".data ++ rest))) ∧
    (∀ rest, matchVerbNameAmount "ออม".data ("ออม".data ++ rest) = none →
      secondDispatch ("ออม".data ++ rest) =
        WBranch.smartInput (smartMatch ("ออม".data ++ rest))) ∧
    (∀ rest, moodRegexMatch (lowerStr ("อารมณ์".data ++ rest)) = none →
      secondDispatch ("อารมณ์".data ++ rest) =
        WBranch.smartInput (smartMatch ("อารมณ์".data ++ rest))) ∧
    (∀ rest, noteRegexMatch ("จด".data ++ rest) = none →
      secondDispatch ("จด".data ++ rest) =
        WBranch.smartInput (smartMatch ("จด".data ++ rest))) := by
  refine ⟨?_, ?_, ?_, ?_, ?_⟩
  all_goals
    intro rest h
    simp only [secondDispatch]
    rw [h]
    rfl

/-- Witness for C8, one malformed phrase per command verb: a budget and a goal with no
    amount, a saving with no amount, a mood with a non-digit argument, and a bare จด. -/
theorem c8_malformed_command_fallthrough_witness :
    secondDispatch ("ตั้งงบ".data ++ " ชานม".data) =
      WBranch.smartInput (smartMatch ("ตั้งงบ".data ++ " ชานม".data)) ∧
    secondDispatch ("ตั้งเป้า".data ++ " iPhone".data) =
      WBranch.smartInput (smartMatch ("ตั้งเป้า".data ++ " iPhone".data)) ∧
    secondDispatch ("ออม".data ++ " iPhone".data) =
      WBranch.smartInput (smartMatch ("ออม".data ++ " iPhone".data)) ∧
    secondDispatch ("อารมณ์".data ++ " มาก".data) =
      WBranch.smartInput (smartMatch ("อารมณ์".data ++ " มาก".data)) ∧
    secondDispatch ("จด".data ++ "".data) =
      WBranch.smartInput (smartMatch ("จด".data ++ "".data)) :=
  ⟨c8_malformed_command_fallthrough.1 " ชานม".data (by decide),
   c8_malformed_command_fallthrough.2.1 " iPhone".data (by decide),
   c8_malformed_command_fallthrough.2.2.1 " iPhone".data (by decide),
   c8_malformed_command_fallthrough.2.2.2.1 " มาก".data (by decide),
   c8_malformed_command_fallthrough.2.2.2.2 "".data (by decide)⟩

/- ===================== C9 ===================== -/

/-- C9: unlocking an achievement already in the unlocked set is a no-op - the membership
    guard leaves the list unchanged, so no duplicate entry is ever appended. -/
theorem c9_unlock_idempotent (l : List String) (aid : String) (h : aid ∈ l) :
    unlockAchievement l aid = l :=
  unlock_of_mem h

/-- Witness for C9 at a concrete achievement list. -/
theorem c9_unlock_idempotent_witness :
    unlockAchievement ["first_record", "week_streak"] "week_streak" =
      ["first_record", "week_streak"] :=
  c9_unlock_idempotent _ _ (by decide)

end ExpenseTracker
